import Mathlib

/-!
Verification development for the Praxis backend skill-progression core
(`backend/app/domain/services.py`).

The embedding below translates, item by item:
 - `clamp_skill`, `apply_skill_update`;
 - the delta calculators `calculate_skill_delta` (v1, divisor 15) and
   `calculate_skill_delta_v2` (overall-score banding, divisor 10, guardrails);
 - the resolver `map_skill_to_user_skill` (exact / keyword-cluster / substring);
 - the orchestrator `process_multiple_skills`;
 - the post-evaluation slice of `SubmissionService.create_and_score_submission`
   (feedback persistence, post-AI validation against `affected_skills`,
   progression with swallowed failures, final "scored" status).

Python dictionaries are embedded as insertion-ordered association lists
(`List (String × _)`); dictionary primitives (`get`, `in`, assignment) are the
`dict*` functions below.  Python float arithmetic is embedded as real
arithmetic (`ℝ`, with `Real.exp` for `math.exp`), and Python's `round`
(banker's rounding, round-half-to-even) as `pyRound`.  The repository
(`get_tech_skills` raises when the profile has no attributes row) is embedded
as a `RepoState` with `Option`-valued skill maps, reads failing via `Except`.
-/

namespace Praxis

/-- Python `needle in hay` on lists: contiguous sublist test. -/
def subList (needle : List Char) : List Char → Bool
  | [] => needle.isEmpty
  | c :: rest => needle.isPrefixOf (c :: rest) || subList needle rest

/-- Python `needle in hay` on strings: contiguous substring test. -/
def pyStrIn (needle hay : String) : Bool :=
  subList needle.toList hay.toList

/-- Python `str.lower()`, embedded as per-character lowering (the keyword
lists the source compares against are already lower-case). -/
def pyLower (s : String) : String :=
  ⟨s.data.map Char.toLower⟩

/-- Python `d.get(k)` on an insertion-ordered dict: first binding of `k`. -/
def dictGet? {α : Type} : List (String × α) → String → Option α
  | [], _ => none
  | p :: rest, k => if p.1 = k then some p.2 else dictGet? rest k

/-- Python `k in d`: key membership. -/
def dictMem {α : Type} (k : String) (m : List (String × α)) : Bool :=
  m.any (fun p => decide (p.1 = k))

/-- Python `d[k] = v`: replace the binding of `k` in place if present,
otherwise append a new binding at the end (dict insertion order). -/
def dictSet {α : Type} : List (String × α) → String → α → List (String × α)
  | [], k, v => [(k, v)]
  | p :: rest, k, v => if p.1 = k then (k, v) :: rest else p :: dictSet rest k v

/-- Python `round` on floats: round half to even (banker's rounding). -/
noncomputable def pyRound (x : ℝ) : ℤ :=
  if x - ⌊x⌋ = 1/2 then (if Even ⌊x⌋ then ⌊x⌋ else ⌊x⌋ + 1) else round x

/-- The slice of an AI `skill_assessment` dict that the calculators read via
`.get`: the two optional keys `skill_level_demonstrated` and
`progression_intensity`.  `none` = key absent. -/
structure Assessment where
  skill_level_demonstrated : Option ℤ
  progression_intensity : Option ℝ

/-- A user's skill map: insertion-ordered dict of skill name → level. -/
abbrev SkillMap := List (String × ℤ)

/-- Embeds `services.clamp_skill`: `max(0, min(100, value))`. -/
def clamp_skill (value : ℤ) : ℤ :=
  max 0 (min 100 value)

/-- The float `ganho` computed by `services.calculate_skill_delta` (v1)
before rounding: `gap * intensity * peso * curva * penal / 15.0`. -/
noncomputable def rawDelta (skill_atual : ℤ) (skill_assessment : Assessment)
    (dificuldade_level : String) (tentativas : ℤ) : ℝ :=
  let skill_demonstrated := skill_assessment.skill_level_demonstrated.getD skill_atual
  let intensity := skill_assessment.progression_intensity.getD 0
  let gap : ℝ := ((skill_demonstrated - skill_atual : ℤ) : ℝ)
  let peso : ℝ :=
    if dificuldade_level = "easy" then 0.7
    else if dificuldade_level = "medium" then 1.0
    else if dificuldade_level = "hard" then 1.3
    else 1.0
  let curva : ℝ := 1 / (1 + Real.exp (((skill_atual : ℝ) - 70) / 10))
  let penal : ℝ := max 0.6 (1 - 0.1 * ((tentativas : ℝ) - 1))
  gap * intensity * peso * curva * penal / 15.0

/-- Embeds `services.calculate_skill_delta` (legacy v1): `int(round(ganho))`. -/
noncomputable def calculate_skill_delta (skill_atual : ℤ) (skill_assessment : Assessment)
    (dificuldade_level : String) (tentativas : ℤ) : ℤ :=
  pyRound (rawDelta skill_atual skill_assessment dificuldade_level tentativas)

/-- The float `ganho` computed by `services.calculate_skill_delta_v2` before
the guardrails: `gap * intensity * nota_factor * peso * curva * penal / 10.0`. -/
noncomputable def rawDeltaV2 (skill_atual nota_geral : ℤ) (skill_assessment : Assessment)
    (dificuldade_level : String) (tentativas : ℤ) : ℝ :=
  let skill_demonstrated := skill_assessment.skill_level_demonstrated.getD skill_atual
  let intensity := skill_assessment.progression_intensity.getD 0
  let gap : ℝ := ((skill_demonstrated - skill_atual : ℤ) : ℝ)
  let nota_factor : ℝ :=
    if nota_geral < 50 then
      (if intensity < 0 then ((nota_geral : ℝ) - 50) / 50.0 * (1 + |intensity|)
       else ((nota_geral : ℝ) - 50) / 50.0)
    else if 90 ≤ nota_geral then 2.0
    else if 75 ≤ nota_geral then 1.5
    else if 60 ≤ nota_geral then 1.0
    else 0.6
  let peso : ℝ :=
    if dificuldade_level = "easy" then 0.7
    else if dificuldade_level = "medium" then 1.0
    else if dificuldade_level = "hard" then 1.3
    else 1.0
  let curva : ℝ := 1 / (1 + Real.exp (((skill_atual : ℝ) - 70) / 10))
  let penal : ℝ := max 0.6 (1 - 0.1 * ((tentativas : ℝ) - 1))
  gap * intensity * nota_factor * peso * curva * penal / 10.0

/-- Embeds `services.calculate_skill_delta_v2`: the raw delta with the two
extreme-score guardrails applied, then `int(round(ganho))`. -/
noncomputable def calculate_skill_delta_v2 (skill_atual nota_geral : ℤ)
    (skill_assessment : Assessment) (dificuldade_level : String) (tentativas : ℤ) : ℤ :=
  let ganho := rawDeltaV2 skill_atual nota_geral skill_assessment dificuldade_level tentativas
  if 90 ≤ nota_geral ∧ 0 < ganho ∧ ganho < 3 then 3
  else if nota_geral < 40 ∧ ganho < 0 ∧ -2 < ganho then -2
  else pyRound ganho

/-- Embeds `services.apply_skill_update`: no-op on a falsy target (None or empty
string); otherwise `tech_skills[target] = clamp_skill(tech_skills.get(target, 50) + delta)`. -/
def apply_skill_update (tech_skills : SkillMap) (target_skill : Option String)
    (delta : ℤ) : SkillMap :=
  match target_skill with
  | none => tech_skills
  | some t =>
      if t = "" then tech_skills
      else dictSet tech_skills t (clamp_skill ((dictGet? tech_skills t).getD 50 + delta))

/-- The `comunicacao_keywords` list of `services.map_skill_to_user_skill`. -/
def comunicacao_keywords : List String :=
  ["comunicação", "comunicacao", "comunicar", "explicar", "escrever",
   "mensagem", "email", "técnica", "tecnica", "equipe"]

/-- The `organizacao_keywords` list of `services.map_skill_to_user_skill`. -/
def organizacao_keywords : List String :=
  ["organização", "organizacao", "organizar", "planejar", "planejamento",
   "priorizar", "gerenciar", "gestão", "gestao"]

/-- The `resolucao_keywords` list of `services.map_skill_to_user_skill`. -/
def resolucao_keywords : List String :=
  ["resolução", "resolucao", "resolver", "problema", "debugar", "debug",
   "investigar", "análise", "analise"]

/-- Embeds `any(keyword in s for keyword in keywords)`. -/
def matchesCluster (keywords : List String) (s : String) : Bool :=
  keywords.any (fun keyword => pyStrIn keyword s)

/-- The soft-skill loop of `services.map_skill_to_user_skill`: iterate over the
user-skill keys in dict order; for each candidate test the three keyword
clusters, in the order communication, organization, problem-solving, against
the (already lowered) assessed label and the lowered candidate. -/
def resolveSoft (skill_lower : String) : List String → Option String
  | [] => none
  | user_skill :: rest =>
      let user_skill_lower := (pyLower user_skill)
      if matchesCluster comunicacao_keywords skill_lower &&
         matchesCluster comunicacao_keywords user_skill_lower then some user_skill
      else if matchesCluster organizacao_keywords skill_lower &&
              matchesCluster organizacao_keywords user_skill_lower then some user_skill
      else if matchesCluster resolucao_keywords skill_lower &&
              matchesCluster resolucao_keywords user_skill_lower then some user_skill
      else resolveSoft skill_lower rest

/-- Embeds `services.map_skill_to_user_skill` on the key list of the user-skill dict
(the function only ever reads `user_skills.keys()` apart from the exact-match
membership test, which is also a key test). -/
def resolveOnKeys (skill_name : String) (keys : List String) (is_soft_skill : Bool) :
    Option String :=
  if keys.contains skill_name then some skill_name
  else if is_soft_skill then
    resolveSoft (pyLower skill_name) keys
  else
    keys.find? (fun user_skill =>
      pyStrIn (pyLower skill_name) (pyLower user_skill) ||
      pyStrIn (pyLower user_skill) (pyLower skill_name))

/-- Embeds `services.map_skill_to_user_skill`: exact key match first; keyword-cluster
matching for soft skills; case-insensitive two-way substring matching for tech
skills; `None` when nothing matches. -/
def map_skill_to_user_skill (skill_name : String) (user_skills : SkillMap)
    (is_soft_skill : Bool) : Option String :=
  resolveOnKeys skill_name (user_skills.map Prod.fst) is_soft_skill

/-- The `{skills_updated, deltas, new_values, skill_type}` dict returned by
`services.process_multiple_skills`. -/
structure ProgressionResult where
  skills_updated : List String
  deltas : List (String × ℤ)
  new_values : List (String × ℤ)
  skill_type : String

/-- The per-assessment loop of `services.process_multiple_skills` (lines
334-378): resolve each assessed label against the current map, skip unmapped
labels and already-processed resolved skills, otherwise compute the v2 delta,
clamp, write the new value into the map and record delta and new value.
`dictGet? … |>.getD 0` embeds `current_skills[user_skill_name]`; the default is
unreachable because the resolver only returns keys of the map. -/
noncomputable def processSkillsGo (nota_geral : ℤ) (difficulty_level : String)
    (attempts : ℤ) (is_soft_skill : Bool) :
    List (String × Assessment) → SkillMap → List (String × ℤ) → List (String × ℤ) →
    SkillMap × List (String × ℤ) × List (String × ℤ)
  | [], current_skills, deltas, new_values => (current_skills, deltas, new_values)
  | (assessed_skill_name, assessment) :: rest, current_skills, deltas, new_values =>
      match map_skill_to_user_skill assessed_skill_name current_skills is_soft_skill with
      | none => processSkillsGo nota_geral difficulty_level attempts is_soft_skill
          rest current_skills deltas new_values
      | some user_skill_name =>
          if dictMem user_skill_name deltas then
            processSkillsGo nota_geral difficulty_level attempts is_soft_skill
              rest current_skills deltas new_values
          else
            let skill_atual := (dictGet? current_skills user_skill_name).getD 0
            let delta := calculate_skill_delta_v2 skill_atual nota_geral assessment
              difficulty_level attempts
            let new_value := clamp_skill (skill_atual + delta)
            processSkillsGo nota_geral difficulty_level attempts is_soft_skill
              rest (dictSet current_skills user_skill_name new_value)
              (deltas ++ [(user_skill_name, delta)])
              (new_values ++ [(user_skill_name, new_value)])

/-- The repository state visible to the progression code: the two optional
skill maps (`none` = the profile has no attributes row, so `get_tech_skills` /
`get_soft_skills` raise), the persisted feedback records `(score, feedback)`,
and the current submission status. -/
structure RepoState where
  tech_skills : Option SkillMap
  soft_skills : Option SkillMap
  feedbacks : List (ℤ × String)
  submission_status : String

/-- Embeds `is_soft_skill = category == "daily-task"`. -/
def isSoftCategory (category : String) : Bool :=
  category = "daily-task"

/-- The skill map `process_multiple_skills` fetches for a category:
soft skills iff `category == "daily-task"`, else tech skills. -/
def skillsOf (repo : RepoState) (category : String) : Option SkillMap :=
  if isSoftCategory category then repo.soft_skills else repo.tech_skills

/-- Writing the updated map back (`update_soft_skills` / `update_tech_skills`). -/
def setSkills (repo : RepoState) (category : String) (m : SkillMap) : RepoState :=
  if isSoftCategory category then { repo with soft_skills := some m }
  else { repo with tech_skills := some m }

/-- Embeds `services.process_multiple_skills`: fetch the map for the category (a read
that raises — `Except.error` — when the profile has no skill map), run the
per-assessment loop, persist the whole updated map in one write, and return the
`ProgressionResult`.  `affected_skills` is accepted but unused, exactly as in
the source (validation against it happens in the caller). -/
noncomputable def process_multiple_skills (affected_skills : List String)
    (skills_assessment : List (String × Assessment)) (nota_geral : ℤ)
    (difficulty_level : String) (attempts : ℤ) (category : String)
    (repo : RepoState) : Except String (RepoState × ProgressionResult) :=
  let is_soft_skill := isSoftCategory category
  let skill_type := if is_soft_skill then "soft_skills" else "tech_skills"
  match skillsOf repo category with
  | none => .error "Attributes não encontrados"
  | some current_skills =>
      let r := processSkillsGo nota_geral difficulty_level attempts is_soft_skill
        skills_assessment current_skills [] []
      .ok (setSkills repo category r.1,
        ⟨r.2.1.map Prod.fst, r.2.1, r.2.2, skill_type⟩)

/-- The fields of the AI evaluation result that the submission flow reads:
`nota_geral`, `feedback_detalhado`, the new-format `skills_assessment` dict and
the legacy singular `skill_assessment` (`none` = absent or empty, i.e. falsy). -/
structure EvalResult where
  nota_geral : ℤ
  feedback_detalhado : String
  skills_assessment : List (String × Assessment)
  skill_assessment_old : Option Assessment

/-- The dict returned by `SubmissionService.create_and_score_submission`
(restricted to the fields the progression step determines). -/
structure SubmissionOutcome where
  status : String
  score : ℤ
  feedback : String
  skills_progression : Option ProgressionResult
  target_skill : Option String
  delta_applied : Option ℤ
  updated_skill_value : Option ℤ

/-- The post-AI validation pass of `create_and_score_submission` (lines
707-717): keep only the assessed labels present in `affected_skills`. -/
def validateAssessment (affected_skills : List String)
    (skills_assessment : List (String × Assessment)) : List (String × Assessment) :=
  skills_assessment.filter (fun p => affected_skills.contains p.1)

/-- PASSO 7 of `create_and_score_submission`: the progression step.  Returns
the repository state after the step together with `skills_progression` and the
three legacy fields.  Both branches run under `try/except`: any failure (here:
a failing skills read) leaves the repository untouched and every output field
of the branch at its pre-`try` value.  Python's truthiness tests on the lists
and on the legacy dict are the `isEmpty`/`isSome` tests. -/
noncomputable def progressionStep (difficulty_level category : String)
    (affected_skills : List String) (ev : EvalResult) (score attempts : ℤ)
    (repo : RepoState) :
    RepoState × Option ProgressionResult × Option String × Option ℤ × Option ℤ :=
  if !affected_skills.isEmpty && !ev.skills_assessment.isEmpty then
    let validated_assessment := validateAssessment affected_skills ev.skills_assessment
    match process_multiple_skills affected_skills validated_assessment score
      difficulty_level attempts category repo with
    | .error _ => (repo, none, none, none, none)
    | .ok (repo', prog) =>
        match prog.deltas.head? with
        | some (first_skill, d) =>
            (repo', some prog, some first_skill, some d,
             dictGet? prog.new_values first_skill)
        | none => (repo', some prog, none, none, none)
  else if !affected_skills.isEmpty && ev.skill_assessment_old.isSome then
    match ev.skill_assessment_old, affected_skills.head? with
    | some old, some t =>
        if t = "" then (repo, none, some t, none, none)
        else
          match repo.tech_skills with
          | none => (repo, none, some t, none, none)
          | some current_skills =>
              let skill_atual := (dictGet? current_skills t).getD 50
              let delta := calculate_skill_delta skill_atual old difficulty_level attempts
              let new_skills := apply_skill_update current_skills (some t) delta
              ({ repo with tech_skills := some new_skills }, none, some t, some delta,
               some ((dictGet? new_skills t).getD skill_atual))
    | _, _ => (repo, none, none, none, none)
  else (repo, none, none, none, none)

/-- The tail of `SubmissionService.create_and_score_submission` after a
successful AI evaluation (PASSO 6 through PASSO 8): persist the feedback
record, resolve the `affected_skills` allow-list (with the legacy
`target_skill` fallback), run the progression step with failures swallowed,
mark the submission `"scored"` and build the returned dict. -/
noncomputable def scoreSubmissionAfterEval (difficulty_level category : String)
    (affected_skills0 : List String) (target_skill_fallback : Option String)
    (ev : EvalResult) (attempts : ℤ) (repo : RepoState) :
    RepoState × SubmissionOutcome :=
  let score := ev.nota_geral
  let feedback_text := ev.feedback_detalhado
  let repo1 : RepoState := { repo with feedbacks := repo.feedbacks ++ [(score, feedback_text)] }
  let affected_skills :=
    if affected_skills0.isEmpty then
      match target_skill_fallback with
      | some t => if t = "" then [] else [t]
      | none => []
    else affected_skills0
  let r := progressionStep difficulty_level category affected_skills ev score attempts repo1
  let repo3 : RepoState := { r.1 with submission_status := "scored" }
  (repo3,
   { status := "scored"
     score := score
     feedback := feedback_text
     skills_progression := r.2.1
     target_skill := r.2.2.1
     delta_applied := r.2.2.2.1
     updated_skill_value := r.2.2.2.2 })

/-! ### Helper lemmas about the dictionary embedding -/

theorem clamp_skill_bounds (value : ℤ) : 0 ≤ clamp_skill value ∧ clamp_skill value ≤ 100 := by
  unfold clamp_skill
  omega

theorem dictMem_iff {α : Type} (k : String) (m : List (String × α)) :
    dictMem k m = true ↔ k ∈ m.map Prod.fst := by
  simp [dictMem, List.any_eq_true, List.mem_map]

theorem dictGet?_eq_none {α : Type} (m : List (String × α)) (k : String) :
    dictGet? m k = none ↔ k ∉ m.map Prod.fst := by
  induction m with
  | nil => simp [dictGet?]
  | cons p rest ih =>
      by_cases h : p.1 = k
      · simp [dictGet?, h]
      · simp [dictGet?, h, ih, Ne.symm h]

theorem dictGet?_append {α : Type} (m m' : List (String × α)) (k : String) :
    dictGet? (m ++ m') k =
      match dictGet? m k with
      | some v => some v
      | none => dictGet? m' k := by
  induction m with
  | nil => simp [dictGet?]
  | cons p rest ih =>
      by_cases h : p.1 = k
      · simp [dictGet?, h]
      · simp [dictGet?, h, ih]

theorem dictSet_keys_of_mem {α : Type} {m : List (String × α)} {k : String} (v : α)
    (h : k ∈ m.map Prod.fst) :
    (dictSet m k v).map Prod.fst = m.map Prod.fst := by
  induction m with
  | nil => simp at h
  | cons p rest ih =>
      by_cases hp : p.1 = k
      · simp [dictSet, hp]
      · simp only [List.map_cons, List.mem_cons] at h
        rcases h with h | h
        · exact absurd h.symm hp
        · simp [dictSet, hp, ih h]

theorem dictSet_keys_of_not_mem {α : Type} {m : List (String × α)} {k : String} (v : α)
    (h : k ∉ m.map Prod.fst) :
    (dictSet m k v).map Prod.fst = m.map Prod.fst ++ [k] := by
  induction m with
  | nil => simp [dictSet]
  | cons p rest ih =>
      simp only [List.map_cons, List.mem_cons] at h
      push_neg at h
      simp [dictSet, Ne.symm h.1, ih h.2]

theorem dictGet?_dictSet_self {α : Type} (m : List (String × α)) (k : String) (v : α) :
    dictGet? (dictSet m k v) k = some v := by
  induction m with
  | nil => simp [dictSet, dictGet?]
  | cons p rest ih =>
      by_cases hp : p.1 = k
      · simp [dictSet, hp, dictGet?]
      · simp [dictSet, hp, dictGet?, ih]

theorem dictGet?_dictSet_ne {α : Type} (m : List (String × α)) {k k' : String} (v : α)
    (h : k' ≠ k) :
    dictGet? (dictSet m k v) k' = dictGet? m k' := by
  induction m with
  | nil => simp [dictSet, dictGet?, Ne.symm h]
  | cons p rest ih =>
      by_cases hp : p.1 = k
      · simp [dictSet, hp, dictGet?, Ne.symm h, hp ▸ Ne.symm h]
      · simp [dictSet, hp, dictGet?, ih]

theorem mem_dictSet {α : Type} {m : List (String × α)} {k : String} {v : α} {p : String × α}
    (h : p ∈ dictSet m k v) : p ∈ m ∨ p = (k, v) := by
  induction m with
  | nil => simp [dictSet] at h; simp [h]
  | cons q rest ih =>
      by_cases hq : q.1 = k
      · simp only [dictSet, if_pos hq, List.mem_cons] at h
        rcases h with h | h
        · right; exact h
        · left; simp [h]
      · simp only [dictSet, if_neg hq, List.mem_cons] at h
        rcases h with h | h
        · left; simp [h]
        · rcases ih h with h' | h'
          · left; simp [h']
          · right; exact h'

/-! ### Helper lemmas about the resolver -/

theorem resolveSoft_mem {skill_lower : String} {keys : List String} {u : String}
    (h : resolveSoft skill_lower keys = some u) : u ∈ keys := by
  induction keys with
  | nil => simp [resolveSoft] at h
  | cons k rest ih =>
      simp only [resolveSoft] at h
      split at h
      · simp at h; simp [h]
      · split at h
        · simp at h; simp [h]
        · split at h
          · simp at h; simp [h]
          · exact List.mem_cons_of_mem _ (ih h)

theorem resolveOnKeys_mem {skill_name : String} {keys : List String} {is_soft_skill : Bool}
    {u : String} (h : resolveOnKeys skill_name keys is_soft_skill = some u) : u ∈ keys := by
  unfold resolveOnKeys at h
  split at h
  · next hc =>
      obtain rfl : skill_name = u := by simpa using h
      exact List.elem_iff.mp hc
  · split at h
    · exact resolveSoft_mem h
    · exact List.mem_of_find?_eq_some h

theorem map_skill_mem {skill_name : String} {user_skills : SkillMap} {is_soft_skill : Bool}
    {u : String} (h : map_skill_to_user_skill skill_name user_skills is_soft_skill = some u) :
    u ∈ user_skills.map Prod.fst :=
  resolveOnKeys_mem h

/-! ### Invariant lemmas for the orchestrator loop -/

section LoopLemmas

variable (ng : ℤ) (dl : String) (at_ : ℤ) (s : Bool)

/-- The loop never changes the key set (or even the key list) of the map. -/
theorem processSkillsGo_keys (ents : List (String × Assessment)) (cur : SkillMap)
    (ds ns : List (String × ℤ)) :
    (processSkillsGo ng dl at_ s ents cur ds ns).1.map Prod.fst = cur.map Prod.fst := by
  induction ents generalizing cur ds ns with
  | nil => simp [processSkillsGo]
  | cons e rest ih =>
      obtain ⟨l, asmt⟩ := e
      simp only [processSkillsGo]
      cases hres : map_skill_to_user_skill l cur s with
      | none => exact ih cur ds ns
      | some u =>
          by_cases hd : dictMem u ds
          · simp only [hd, if_pos]
            exact ih cur ds ns
          · simp only [hd, Bool.false_eq_true, if_neg, not_false_iff]
            rw [ih]
            exact dictSet_keys_of_mem _ (map_skill_mem hres)

/-- Every binding of the final map is an original binding or has a clamped
value; hence all values stay in `[0,100]` when they start there. -/
theorem processSkillsGo_values (ents : List (String × Assessment)) (cur : SkillMap)
    (ds ns : List (String × ℤ))
    (h : ∀ p ∈ cur, 0 ≤ p.2 ∧ p.2 ≤ 100) :
    ∀ p ∈ (processSkillsGo ng dl at_ s ents cur ds ns).1, 0 ≤ p.2 ∧ p.2 ≤ 100 := by
  induction ents generalizing cur ds ns with
  | nil => simpa [processSkillsGo] using h
  | cons e rest ih =>
      obtain ⟨l, asmt⟩ := e
      simp only [processSkillsGo]
      cases hres : map_skill_to_user_skill l cur s with
      | none => exact ih cur ds ns h
      | some u =>
          by_cases hd : dictMem u ds
          · simp only [hd, if_pos]
            exact ih cur ds ns h
          · simp only [hd, Bool.false_eq_true, if_neg, not_false_iff]
            refine ih _ _ _ ?_
            intro p hp
            rcases mem_dictSet hp with hp' | hp'
            · exact h p hp'
            · rw [hp']
              exact clamp_skill_bounds _

/-- The recorded deltas only grow (by appending at the end). -/
theorem processSkillsGo_deltas_prefix (ents : List (String × Assessment)) (cur : SkillMap)
    (ds ns : List (String × ℤ)) :
    ∃ t, (processSkillsGo ng dl at_ s ents cur ds ns).2.1 = ds ++ t := by
  induction ents generalizing cur ds ns with
  | nil => exact ⟨[], by simp [processSkillsGo]⟩
  | cons e rest ih =>
      obtain ⟨l, asmt⟩ := e
      simp only [processSkillsGo]
      cases hres : map_skill_to_user_skill l cur s with
      | none => exact ih cur ds ns
      | some u =>
          by_cases hd : dictMem u ds
          · simp only [hd, if_pos]
            exact ih cur ds ns
          · simp only [hd, Bool.false_eq_true, if_neg, not_false_iff]
            obtain ⟨t, ht⟩ := ih (dictSet cur u _) (ds ++ [(u, _)]) (ns ++ [(u, _)])
            exact ⟨_, by rw [ht, List.append_assoc]⟩

/-- A recorded delta is never overwritten later. -/
theorem processSkillsGo_deltas_stable (ents : List (String × Assessment)) (cur : SkillMap)
    (ds ns : List (String × ℤ)) {k : String} {v : ℤ} (h : dictGet? ds k = some v) :
    dictGet? (processSkillsGo ng dl at_ s ents cur ds ns).2.1 k = some v := by
  obtain ⟨t, ht⟩ := processSkillsGo_deltas_prefix ng dl at_ s ents cur ds ns
  rw [ht, dictGet?_append, h]

/-- Every entry of `new_values` (beyond the accumulator) is a clamp of a
current level plus its recorded delta. -/
theorem processSkillsGo_newvals_clamped (ents : List (String × Assessment)) (cur : SkillMap)
    (ds ns : List (String × ℤ)) :
    ∀ q ∈ (processSkillsGo ng dl at_ s ents cur ds ns).2.2, q ∈ ns ∨
      ∃ c d, dictGet? (processSkillsGo ng dl at_ s ents cur ds ns).2.1 q.1 = some d ∧
        q.2 = clamp_skill (c + d) := by
  induction ents generalizing cur ds ns with
  | nil => intro q hq; left; simpa [processSkillsGo] using hq
  | cons e rest ih =>
      obtain ⟨l, asmt⟩ := e
      simp only [processSkillsGo]
      cases hres : map_skill_to_user_skill l cur s with
      | none => exact ih cur ds ns
      | some u =>
          by_cases hd : dictMem u ds
          · simp only [hd, if_pos]
            exact ih cur ds ns
          · simp only [hd, Bool.false_eq_true, if_neg, not_false_iff]
            intro q hq
            have hu : u ∉ ds.map Prod.fst := by
              intro hm
              exact hd ((dictMem_iff u ds).mpr hm)
            have hdsu : dictGet? (ds ++ [(u, calculate_skill_delta_v2
                ((dictGet? cur u).getD 0) ng asmt dl at_)]) u =
                some (calculate_skill_delta_v2 ((dictGet? cur u).getD 0) ng asmt dl at_) := by
              rw [dictGet?_append, (dictGet?_eq_none ds u).mpr hu]
              simp [dictGet?]
            rcases ih _ _ _ q hq with hq' | hq'
            · rcases List.mem_append.mp hq' with hq'' | hq''
              · exact Or.inl hq''
              · right
                simp only [List.mem_singleton] at hq''
                subst hq''
                exact ⟨(dictGet? cur u).getD 0, _,
                  processSkillsGo_deltas_stable ng dl at_ s rest _ _ _ hdsu, rfl⟩
            · exact Or.inr hq'

/-- Every entry of `new_values` is the value actually stored in the final map
(a processed key is never touched again, thanks to the dedup guard). -/
theorem processSkillsGo_written (ents : List (String × Assessment)) (cur : SkillMap)
    (ds ns : List (String × ℤ))
    (hns : ∀ q ∈ ns, dictGet? cur q.1 = some q.2 ∧ q.1 ∈ ds.map Prod.fst) :
    ∀ q ∈ (processSkillsGo ng dl at_ s ents cur ds ns).2.2,
      dictGet? (processSkillsGo ng dl at_ s ents cur ds ns).1 q.1 = some q.2 := by
  induction ents generalizing cur ds ns with
  | nil =>
      intro q hq
      simp only [processSkillsGo] at hq ⊢
      exact (hns q hq).1
  | cons e rest ih =>
      obtain ⟨l, asmt⟩ := e
      simp only [processSkillsGo]
      cases hres : map_skill_to_user_skill l cur s with
      | none => exact ih cur ds ns hns
      | some u =>
          by_cases hd : dictMem u ds
          · simp only [hd, if_pos]
            exact ih cur ds ns hns
          · simp only [hd, Bool.false_eq_true, if_neg, not_false_iff]
            have hu : u ∉ ds.map Prod.fst := fun hm => hd ((dictMem_iff u ds).mpr hm)
            refine ih _ _ _ ?_
            intro q hq
            rcases List.mem_append.mp hq with hq' | hq'
            · obtain ⟨h1, h2⟩ := hns q hq'
              have hne : q.1 ≠ u := fun he => hu (he ▸ h2)
              refine ⟨by rw [dictGet?_dictSet_ne _ _ hne, h1], ?_⟩
              simp [h2]
            · simp only [List.mem_singleton] at hq'
              subst hq'
              exact ⟨dictGet?_dictSet_self _ _ _, by simp⟩

/-- Every key of the recorded deltas (beyond the accumulator) is the
resolution of some processed assessment entry. -/
theorem processSkillsGo_stems (ents : List (String × Assessment)) (cur : SkillMap)
    (ds ns : List (String × ℤ)) :
    ∀ k ∈ (processSkillsGo ng dl at_ s ents cur ds ns).2.1.map Prod.fst,
      k ∈ ds.map Prod.fst ∨
      ∃ la ∈ ents, resolveOnKeys la.1 (cur.map Prod.fst) s = some k := by
  induction ents generalizing cur ds ns with
  | nil =>
      intro k hk
      left
      simpa [processSkillsGo] using hk
  | cons e rest ih =>
      obtain ⟨l, asmt⟩ := e
      simp only [processSkillsGo]
      cases hres : map_skill_to_user_skill l cur s with
      | none =>
          intro k hk
          rcases ih cur ds ns k hk with h | ⟨la, hla, hres'⟩
          · exact Or.inl h
          · exact Or.inr ⟨la, List.mem_cons_of_mem _ hla, hres'⟩
      | some u =>
          by_cases hd : dictMem u ds
          · simp only [hd, if_pos]
            intro k hk
            rcases ih cur ds ns k hk with h | ⟨la, hla, hres'⟩
            · exact Or.inl h
            · exact Or.inr ⟨la, List.mem_cons_of_mem _ hla, hres'⟩
          · simp only [hd, Bool.false_eq_true, if_neg, not_false_iff]
            intro k hk
            have hkeys : (dictSet cur u (clamp_skill ((dictGet? cur u).getD 0 +
                calculate_skill_delta_v2 ((dictGet? cur u).getD 0) ng asmt dl at_))).map
                Prod.fst = cur.map Prod.fst :=
              dictSet_keys_of_mem _ (map_skill_mem hres)
            rcases ih _ _ _ k hk with h | ⟨la, hla, hres'⟩
            · rw [List.map_append] at h
              rcases List.mem_append.mp h with h' | h'
              · exact Or.inl h'
              · simp only [List.map_cons, List.map_nil, List.mem_singleton] at h'
                subst h'
                exact Or.inr ⟨(l, asmt), List.mem_cons_self _ _, hres⟩
            · rw [hkeys] at hres'
              exact Or.inr ⟨la, List.mem_cons_of_mem _ hla, hres'⟩

/-- The recorded delta keys stay duplicate-free. -/
theorem processSkillsGo_nodup (ents : List (String × Assessment)) (cur : SkillMap)
    (ds ns : List (String × ℤ)) (h : (ds.map Prod.fst).Nodup) :
    ((processSkillsGo ng dl at_ s ents cur ds ns).2.1.map Prod.fst).Nodup := by
  induction ents generalizing cur ds ns with
  | nil => simpa [processSkillsGo] using h
  | cons e rest ih =>
      obtain ⟨l, asmt⟩ := e
      simp only [processSkillsGo]
      cases hres : map_skill_to_user_skill l cur s with
      | none => exact ih cur ds ns h
      | some u =>
          by_cases hd : dictMem u ds
          · simp only [hd, if_pos]
            exact ih cur ds ns h
          · simp only [hd, Bool.false_eq_true, if_neg, not_false_iff]
            refine ih _ _ _ ?_
            have hu : u ∉ ds.map Prod.fst := fun hm => hd ((dictMem_iff u ds).mpr hm)
            simp only [List.map_append, List.nodup_append]
            refine ⟨h, by simp, ?_⟩
            intro a ha hb
            simp only [List.map_cons, List.map_nil, List.mem_singleton] at hb
            subst hb
            exact hu ha

/-- The `new_values` list always carries exactly the same key list as `deltas`. -/
theorem processSkillsGo_newvals_keys (ents : List (String × Assessment)) (cur : SkillMap)
    (ds ns : List (String × ℤ)) (h : ns.map Prod.fst = ds.map Prod.fst) :
    (processSkillsGo ng dl at_ s ents cur ds ns).2.2.map Prod.fst =
      (processSkillsGo ng dl at_ s ents cur ds ns).2.1.map Prod.fst := by
  induction ents generalizing cur ds ns with
  | nil => simpa [processSkillsGo] using h
  | cons e rest ih =>
      obtain ⟨l, asmt⟩ := e
      simp only [processSkillsGo]
      cases hres : map_skill_to_user_skill l cur s with
      | none => exact ih cur ds ns h
      | some u =>
          by_cases hd : dictMem u ds
          · simp only [hd, if_pos]
            exact ih cur ds ns h
          · simp only [hd, Bool.false_eq_true, if_neg, not_false_iff]
            exact ih _ _ _ (by simp [h])

/-- Frame property of the loop, map part: a key that no entry resolves to
keeps its binding. -/
theorem processSkillsGo_frame_map (ents : List (String × Assessment)) (cur : SkillMap)
    (ds ns : List (String × ℤ)) {k : String}
    (hk : ∀ la ∈ ents, resolveOnKeys la.1 (cur.map Prod.fst) s ≠ some k) :
    dictGet? (processSkillsGo ng dl at_ s ents cur ds ns).1 k = dictGet? cur k := by
  induction ents generalizing cur ds ns with
  | nil => simp [processSkillsGo]
  | cons e rest ih =>
      obtain ⟨l, asmt⟩ := e
      simp only [processSkillsGo]
      cases hres : map_skill_to_user_skill l cur s with
      | none => exact ih cur ds ns (fun la hla => hk la (List.mem_cons_of_mem _ hla))
      | some u =>
          have hu : u ≠ k := by
            intro he
            exact hk (l, asmt) (List.mem_cons_self _ _) (he ▸ hres)
          by_cases hd : dictMem u ds
          · simp only [hd, if_pos]
            exact ih cur ds ns (fun la hla => hk la (List.mem_cons_of_mem _ hla))
          · simp only [hd, Bool.false_eq_true, if_neg, not_false_iff]
            have hkeys : (dictSet cur u (clamp_skill ((dictGet? cur u).getD 0 +
                calculate_skill_delta_v2 ((dictGet? cur u).getD 0) ng asmt dl at_))).map
                Prod.fst = cur.map Prod.fst :=
              dictSet_keys_of_mem _ (map_skill_mem hres)
            rw [ih _ _ _ (fun la hla => by
              rw [hkeys]
              exact hk la (List.mem_cons_of_mem _ hla))]
            exact dictGet?_dictSet_ne _ _ (Ne.symm hu)

/-- Frame property of the loop, deltas part: a key that no entry resolves to
never enters the recorded deltas. -/
theorem processSkillsGo_frame_deltas (ents : List (String × Assessment)) (cur : SkillMap)
    (ds ns : List (String × ℤ)) {k : String}
    (hk : ∀ la ∈ ents, resolveOnKeys la.1 (cur.map Prod.fst) s ≠ some k)
    (hds : k ∉ ds.map Prod.fst) :
    k ∉ (processSkillsGo ng dl at_ s ents cur ds ns).2.1.map Prod.fst := by
  intro hmem
  rcases processSkillsGo_stems ng dl at_ s ents cur ds ns k hmem with h | ⟨la, hla, hres⟩
  · exact hds h
  · exact hk la hla hres

/-- Frame property of the loop, `new_values` part. -/
theorem processSkillsGo_frame_newvals (ents : List (String × Assessment)) (cur : SkillMap)
    (ds ns : List (String × ℤ)) {k : String}
    (hk : ∀ la ∈ ents, resolveOnKeys la.1 (cur.map Prod.fst) s ≠ some k)
    (hds : k ∉ ds.map Prod.fst) (hns : ns.map Prod.fst = ds.map Prod.fst) :
    k ∉ (processSkillsGo ng dl at_ s ents cur ds ns).2.2.map Prod.fst := by
  rw [processSkillsGo_newvals_keys ng dl at_ s ents cur ds ns hns]
  exact processSkillsGo_frame_deltas ng dl at_ s ents cur ds ns hk hds

/-- First assessment wins: the delta recorded for a key is computed from the
first entry whose label resolves to that key, at the key's current level. -/
theorem processSkillsGo_first (ents : List (String × Assessment)) (cur : SkillMap)
    (ds ns : List (String × ℤ)) (k : String) (hds : dictGet? ds k = none) :
    dictGet? (processSkillsGo ng dl at_ s ents cur ds ns).2.1 k =
      match ents.find? (fun la => resolveOnKeys la.1 (cur.map Prod.fst) s == some k) with
      | some la => some (calculate_skill_delta_v2 ((dictGet? cur k).getD 0) ng la.2 dl at_)
      | none => none := by
  induction ents generalizing cur ds ns with
  | nil =>
      simpa [processSkillsGo, List.find?] using hds
  | cons e rest ih =>
      obtain ⟨l, asmt⟩ := e
      simp only [processSkillsGo, List.find?]
      cases hres : map_skill_to_user_skill l cur s with
      | none =>
          have hneq : (resolveOnKeys l (cur.map Prod.fst) s == some k) = false := by
            simp only [map_skill_to_user_skill] at hres
            simp [hres]
          rw [hneq]
          exact ih cur ds ns hds
      | some u =>
          by_cases huk : u = k
          · subst huk
            have heq : (resolveOnKeys l (cur.map Prod.fst) s == some u) = true := by
              simp only [map_skill_to_user_skill] at hres
              simp [hres]
            rw [heq]
            have hd : dictMem u ds = false := by
              rw [Bool.eq_false_iff]
              intro hmem
              exact (dictGet?_eq_none ds u).mp hds ((dictMem_iff u ds).mp hmem)
            simp only [hd, Bool.false_eq_true, if_neg, not_false_iff]
            refine processSkillsGo_deltas_stable ng dl at_ s rest _ _ _ ?_
            rw [dictGet?_append, hds]
            simp [dictGet?]
          · have hneq : (resolveOnKeys l (cur.map Prod.fst) s == some k) = false := by
              simp only [map_skill_to_user_skill] at hres
              simp [hres, huk]
            rw [hneq]
            by_cases hd : dictMem u ds
            · simp only [hd, if_pos]
              exact ih cur ds ns hds
            · simp only [hd, Bool.false_eq_true, if_neg, not_false_iff]
              have hkeys : (dictSet cur u (clamp_skill ((dictGet? cur u).getD 0 +
                  calculate_skill_delta_v2 ((dictGet? cur u).getD 0) ng asmt dl at_))).map
                  Prod.fst = cur.map Prod.fst :=
                dictSet_keys_of_mem _ (map_skill_mem hres)
              have hds' : dictGet? (ds ++ [(u, calculate_skill_delta_v2
                  ((dictGet? cur u).getD 0) ng asmt dl at_)]) k = none := by
                rw [dictGet?_append, hds]
                simp [dictGet?, huk]
              rw [ih _ _ _ hds', hkeys,
                dictGet?_dictSet_ne _ _ (fun he => huk he.symm)]

end LoopLemmas

/-! ### Lemmas about the delta calculators -/

theorem pyRound_zero : pyRound 0 = 0 := by
  unfold pyRound
  norm_num

theorem rawDeltaV2_of_zero_intensity (skill_atual nota_geral : ℤ) (a : Assessment)
    (dificuldade_level : String) (tentativas : ℤ)
    (h : a.progression_intensity.getD 0 = 0) :
    rawDeltaV2 skill_atual nota_geral a dificuldade_level tentativas = 0 := by
  simp only [rawDeltaV2, h]
  ring

theorem rawDelta_of_zero_intensity (skill_atual : ℤ) (a : Assessment)
    (dificuldade_level : String) (tentativas : ℤ)
    (h : a.progression_intensity.getD 0 = 0) :
    rawDelta skill_atual a dificuldade_level tentativas = 0 := by
  simp only [rawDelta, h]
  ring

theorem rawDeltaV2_of_missing_keys (skill_atual nota_geral : ℤ)
    (dificuldade_level : String) (tentativas : ℤ) :
    rawDeltaV2 skill_atual nota_geral ⟨none, none⟩ dificuldade_level tentativas = 0 := by
  simp only [rawDeltaV2, Option.getD_none]
  norm_num

theorem calculate_skill_delta_v2_of_zero_raw (skill_atual nota_geral : ℤ) (a : Assessment)
    (dificuldade_level : String) (tentativas : ℤ)
    (h : rawDeltaV2 skill_atual nota_geral a dificuldade_level tentativas = 0) :
    calculate_skill_delta_v2 skill_atual nota_geral a dificuldade_level tentativas = 0 := by
  simp only [calculate_skill_delta_v2, h, lt_irrefl, and_false, false_and, if_false,
    pyRound_zero]

theorem calculate_skill_delta_of_zero_intensity (skill_atual : ℤ) (a : Assessment)
    (dificuldade_level : String) (tentativas : ℤ)
    (h : a.progression_intensity.getD 0 = 0) :
    calculate_skill_delta skill_atual a dificuldade_level tentativas = 0 := by
  simp only [calculate_skill_delta,
    rawDelta_of_zero_intensity skill_atual a dificuldade_level tentativas h, pyRound_zero]

/-- Concrete evaluation of the v2 raw delta at level 70 (where the logistic
curve is exactly 1/2), demonstrated 80, intensity 0.5, score 95. -/
theorem rawDeltaV2_ex_high : rawDeltaV2 70 95 ⟨some 80, some 0.5⟩ "medium" 1 = 1/2 := by
  simp only [rawDeltaV2, Option.getD_some]
  norm_num [Real.exp_zero]
  rw [if_neg (by decide)]
  norm_num

/-- Concrete evaluation of the v2 raw delta at level 70, demonstrated 80,
intensity 0.5, score 30. -/
theorem rawDeltaV2_ex_low : rawDeltaV2 70 30 ⟨some 80, some 0.5⟩ "medium" 1 = -(1/10) := by
  simp only [rawDeltaV2, Option.getD_some]
  norm_num [Real.exp_zero]
  rw [if_neg (by decide)]
  norm_num

/-! ### Claim theorems for the delta calculator -/

/-- Claim C2: For every input to `calculate_skill_delta_v2`: if `nota_geral ≥ 90`
and the computed raw delta lies strictly between 0 and 3, the function returns
exactly 3; if `nota_geral < 40` and the raw delta lies strictly between -2 and
0, the function returns exactly -2. -/
theorem extreme_score_guardrails (skill_atual nota_geral : ℤ) (a : Assessment)
    (dificuldade_level : String) (tentativas : ℤ) :
    (90 ≤ nota_geral →
      0 < rawDeltaV2 skill_atual nota_geral a dificuldade_level tentativas →
      rawDeltaV2 skill_atual nota_geral a dificuldade_level tentativas < 3 →
      calculate_skill_delta_v2 skill_atual nota_geral a dificuldade_level tentativas = 3) ∧
    (nota_geral < 40 →
      rawDeltaV2 skill_atual nota_geral a dificuldade_level tentativas < 0 →
      -2 < rawDeltaV2 skill_atual nota_geral a dificuldade_level tentativas →
      calculate_skill_delta_v2 skill_atual nota_geral a dificuldade_level tentativas = -2) := by
  constructor
  · intro h1 h2 h3
    simp only [calculate_skill_delta_v2]
    rw [if_pos ⟨h1, h2, h3⟩]
  · intro h1 h2 h3
    simp only [calculate_skill_delta_v2]
    rw [if_neg (by rintro ⟨h90, -⟩; omega), if_pos ⟨h1, h2, h3⟩]

/-- Witness for C2: at level 70 / demonstrated 80 / intensity 0.5 the raw
delta is 0.5 for score 95 (forced up to 3) and -0.1 for score 30 (forced down
to -2). -/
theorem extreme_score_guardrails_witness :
    ((90:ℤ) ≤ 95 ∧ 0 < rawDeltaV2 70 95 ⟨some 80, some 0.5⟩ "medium" 1 ∧
      rawDeltaV2 70 95 ⟨some 80, some 0.5⟩ "medium" 1 < 3 ∧
      calculate_skill_delta_v2 70 95 ⟨some 80, some 0.5⟩ "medium" 1 = 3) ∧
    ((30:ℤ) < 40 ∧ rawDeltaV2 70 30 ⟨some 80, some 0.5⟩ "medium" 1 < 0 ∧
      -2 < rawDeltaV2 70 30 ⟨some 80, some 0.5⟩ "medium" 1 ∧
      calculate_skill_delta_v2 70 30 ⟨some 80, some 0.5⟩ "medium" 1 = -2) := by
  refine ⟨⟨by norm_num, by rw [rawDeltaV2_ex_high]; norm_num,
      by rw [rawDeltaV2_ex_high]; norm_num, ?_⟩,
    ⟨by norm_num, by rw [rawDeltaV2_ex_low]; norm_num,
      by rw [rawDeltaV2_ex_low]; norm_num, ?_⟩⟩
  · exact (extreme_score_guardrails 70 95 ⟨some 80, some 0.5⟩ "medium" 1).1
      (by norm_num) (by rw [rawDeltaV2_ex_high]; norm_num)
      (by rw [rawDeltaV2_ex_high]; norm_num)
  · exact (extreme_score_guardrails 70 30 ⟨some 80, some 0.5⟩ "medium" 1).2
      (by norm_num) (by rw [rawDeltaV2_ex_low]; norm_num)
      (by rw [rawDeltaV2_ex_low]; norm_num)

/-- Claim C3: Whenever the assessment's `progression_intensity` is 0 (including
when the key is absent, where the code defaults it to 0.0),
`calculate_skill_delta_v2` returns 0, for every current level, overall score,
difficulty and attempt number. -/
theorem zero_intensity_zero_delta (skill_atual nota_geral : ℤ) (a : Assessment)
    (dificuldade_level : String) (tentativas : ℤ)
    (h : a.progression_intensity.getD 0 = 0) :
    calculate_skill_delta_v2 skill_atual nota_geral a dificuldade_level tentativas = 0 :=
  calculate_skill_delta_v2_of_zero_raw _ _ _ _ _
    (rawDeltaV2_of_zero_intensity _ _ _ _ _ h)

/-- Witness for C3 at a concrete input with a large gap, extreme score and
explicit zero intensity. -/
theorem zero_intensity_zero_delta_witness :
    (Assessment.progression_intensity ⟨some 99, some 0⟩).getD 0 = 0 ∧
    calculate_skill_delta_v2 40 95 ⟨some 99, some 0⟩ "hard" 2 = 0 :=
  ⟨rfl, zero_intensity_zero_delta 40 95 ⟨some 99, some 0⟩ "hard" 2 rfl⟩

/-- Claim C10: Calling `calculate_skill_delta_v2` with an assessment dict lacking
both `skill_level_demonstrated` and `progression_intensity` returns 0 for
every current level, overall score, difficulty and attempt number: the missing
demonstrated level defaults to the current level (gap 0), the missing
intensity defaults to 0.0, and no guardrail fires on a zero raw delta. -/
theorem missing_assessment_keys_zero_delta (skill_atual nota_geral : ℤ)
    (dificuldade_level : String) (tentativas : ℤ) :
    calculate_skill_delta_v2 skill_atual nota_geral ⟨none, none⟩ dificuldade_level
      tentativas = 0 :=
  calculate_skill_delta_v2_of_zero_raw _ _ _ _ _
    (rawDeltaV2_of_missing_keys _ _ _ _)

/-! ### Claim theorems for the resolver -/

/-- Label and candidate share a keyword cluster (both already lower-cased on
the sides where the source lowers them). -/
def sharesCluster (skill_lower user_skill_lower : String) : Bool :=
  (matchesCluster comunicacao_keywords skill_lower &&
    matchesCluster comunicacao_keywords user_skill_lower) ||
  (matchesCluster organizacao_keywords skill_lower &&
    matchesCluster organizacao_keywords user_skill_lower) ||
  (matchesCluster resolucao_keywords skill_lower &&
    matchesCluster resolucao_keywords user_skill_lower)

theorem resolveSoft_eq_find (skill_lower : String) (keys : List String) :
    resolveSoft skill_lower keys =
      keys.find? (fun u => sharesCluster skill_lower (pyLower u)) := by
  induction keys with
  | nil => simp [resolveSoft, List.find?]
  | cons k rest ih =>
      simp only [resolveSoft, List.find?, sharesCluster]
      cases h1 : matchesCluster comunicacao_keywords skill_lower &&
          matchesCluster comunicacao_keywords (pyLower k) <;>
        cases h2 : matchesCluster organizacao_keywords skill_lower &&
            matchesCluster organizacao_keywords (pyLower k) <;>
          cases h3 : matchesCluster resolucao_keywords skill_lower &&
              matchesCluster resolucao_keywords (pyLower k) <;>
            simp [h1, h2, h3, ih, sharesCluster]

/-- Claim C6, counterexample: The label `"planejar equipe"` matches the
communication cluster (keyword `"equipe"`) and the user skill `"email"`
matches the communication cluster as well, yet the resolver returns
`"planejamento"` — an organization-cluster candidate that does *not* match the
communication cluster — because iteration over user-skill keys takes
precedence over cluster order. -/
theorem soft_resolution_cluster_precedence_counterexample :
    map_skill_to_user_skill "planejar equipe" [("planejamento", 50), ("email", 50)] true =
      some "planejamento" ∧
    matchesCluster comunicacao_keywords (pyLower "planejar equipe") = true ∧
    matchesCluster comunicacao_keywords (pyLower "email") = true ∧
    matchesCluster comunicacao_keywords (pyLower "planejamento") = false := by
  refine ⟨?_, ?_, ?_, ?_⟩ <;> decide

/-- Claim C6, amended: For a soft-skill label with no exact match, the resolver
returns the *first user-skill key in map iteration order* that shares some
keyword cluster with the (lower-cased) label; within one candidate the three
clusters are tested in the order communication → organization →
problem-solving, but across candidates map order — not cluster precedence —
decides. -/
theorem soft_resolution_first_key_wins (skill_name : String) (user_skills : SkillMap)
    (h : skill_name ∉ user_skills.map Prod.fst) :
    map_skill_to_user_skill skill_name user_skills true =
      (user_skills.map Prod.fst).find?
        (fun u => sharesCluster (pyLower skill_name) (pyLower u)) := by
  unfold map_skill_to_user_skill resolveOnKeys
  rw [if_neg (fun hc => h (List.elem_iff.mp hc)), if_pos rfl]
  exact resolveSoft_eq_find _ _

/-- Witness for the amended C6 on the counterexample's input. -/
theorem soft_resolution_first_key_wins_witness :
    "planejar equipe" ∉ ([("planejamento", (50:ℤ)), ("email", 50)].map Prod.fst) ∧
    map_skill_to_user_skill "planejar equipe" [("planejamento", 50), ("email", 50)] true =
      (([("planejamento", (50:ℤ)), ("email", 50)].map Prod.fst).find?
        (fun u => sharesCluster (pyLower "planejar equipe") (pyLower u))) :=
  ⟨by decide, soft_resolution_first_key_wins "planejar equipe"
    [("planejamento", 50), ("email", 50)] (by decide)⟩

/-! ### Claim theorems for the orchestrator -/

theorem skillsOf_setSkills (repo : RepoState) (cat : String) (m : SkillMap) :
    skillsOf (setSkills repo cat m) cat = some m := by
  by_cases h : isSoftCategory cat <;> simp [skillsOf, setSkills, h]

/-- Destructuring a successful `process_multiple_skills` run into the loop's
output. -/
theorem process_multiple_skills_ok {aff : List String} {sa : List (String × Assessment)}
    {ng : ℤ} {dl : String} {att : ℤ} {cat : String} {repo repo' : RepoState}
    {res : ProgressionResult} {m : SkillMap}
    (hm : skillsOf repo cat = some m)
    (hok : process_multiple_skills aff sa ng dl att cat repo = .ok (repo', res)) :
    repo' = setSkills repo cat
        (processSkillsGo ng dl att (isSoftCategory cat) sa m [] []).1 ∧
      res = ⟨(processSkillsGo ng dl att (isSoftCategory cat) sa m [] []).2.1.map Prod.fst,
        (processSkillsGo ng dl att (isSoftCategory cat) sa m [] []).2.1,
        (processSkillsGo ng dl att (isSoftCategory cat) sa m [] []).2.2,
        if isSoftCategory cat then "soft_skills" else "tech_skills"⟩ := by
  unfold process_multiple_skills at hok
  rw [hm] at hok
  simp only [Except.ok.injEq, Prod.mk.injEq] at hok
  exact ⟨hok.1.symm, hok.2.symm⟩

/-- Claim C1: For every skill map whose values are all in `[0,100]` and every
submission processed by `process_multiple_skills`, every value of the map
persisted by the single repository write stays in `[0,100]`, and every entry
of the returned `new_values` equals `clamp_skill (current + delta)` for its
recorded delta — hence lies in `[0,100]` — and is exactly the value written
back into the map. -/
theorem multi_skill_clamp_invariant (aff : List String)
    (sa : List (String × Assessment)) (ng : ℤ) (dl : String) (att : ℤ) (cat : String)
    (repo repo' : RepoState) (res : ProgressionResult) (m : SkillMap)
    (hm : skillsOf repo cat = some m)
    (hbound : ∀ p ∈ m, 0 ≤ p.2 ∧ p.2 ≤ 100)
    (hok : process_multiple_skills aff sa ng dl att cat repo = .ok (repo', res)) :
    (∀ m', skillsOf repo' cat = some m' → ∀ p ∈ m', 0 ≤ p.2 ∧ p.2 ≤ 100) ∧
    (∀ q ∈ res.new_values,
      (∃ c d, dictGet? res.deltas q.1 = some d ∧ q.2 = clamp_skill (c + d) ∧
        0 ≤ q.2 ∧ q.2 ≤ 100) ∧
      (∀ m', skillsOf repo' cat = some m' → dictGet? m' q.1 = some q.2)) := by
  obtain ⟨hrepo', hres⟩ := process_multiple_skills_ok hm hok
  subst hrepo' hres
  constructor
  · intro m' hm' p hp
    rw [skillsOf_setSkills] at hm'
    obtain rfl : (processSkillsGo ng dl att (isSoftCategory cat) sa m [] []).1 = m' := by
      simpa using hm'
    exact processSkillsGo_values ng dl att (isSoftCategory cat) sa m [] [] hbound p hp
  · intro q hq
    constructor
    · rcases processSkillsGo_newvals_clamped ng dl att (isSoftCategory cat) sa m [] []
        q hq with h | ⟨c, d, hd, hval⟩
      · simp at h
      · refine ⟨c, d, hd, hval, ?_⟩
        rw [hval]
        exact clamp_skill_bounds _
    · intro m' hm'
      rw [skillsOf_setSkills] at hm'
      obtain rfl : (processSkillsGo ng dl att (isSoftCategory cat) sa m [] []).1 = m' := by
        simpa using hm'
      exact processSkillsGo_written ng dl att (isSoftCategory cat) sa m [] []
        (by intro q hq'; simp at hq') q hq

/-- Witness for C1 on a one-skill tech map at level 50, score 95. -/
theorem multi_skill_clamp_invariant_witness :
    skillsOf ⟨some [("Python", 50)], none, [], "sent"⟩ "code" = some [("Python", 50)] ∧
    (∀ p ∈ [("Python", (50:ℤ))], 0 ≤ p.2 ∧ p.2 ≤ 100) ∧
    process_multiple_skills ["Python"] [("Python", ⟨some 80, some 0.5⟩)] 95 "medium" 1
        "code" ⟨some [("Python", 50)], none, [], "sent"⟩ =
      .ok (⟨some [("Python", clamp_skill (50 +
              calculate_skill_delta_v2 50 95 ⟨some 80, some 0.5⟩ "medium" 1))],
            none, [], "sent"⟩,
        ⟨["Python"],
         [("Python", calculate_skill_delta_v2 50 95 ⟨some 80, some 0.5⟩ "medium" 1)],
         [("Python", clamp_skill (50 +
            calculate_skill_delta_v2 50 95 ⟨some 80, some 0.5⟩ "medium" 1))],
         "tech_skills"⟩) ∧
    (∀ m', skillsOf ⟨some [("Python", clamp_skill (50 +
          calculate_skill_delta_v2 50 95 ⟨some 80, some 0.5⟩ "medium" 1))],
          none, [], "sent"⟩ "code" = some m' →
        ∀ p ∈ m', 0 ≤ p.2 ∧ p.2 ≤ 100) := by
  refine ⟨rfl, by decide, rfl, ?_⟩
  exact (multi_skill_clamp_invariant ["Python"] [("Python", ⟨some 80, some 0.5⟩)] 95
    "medium" 1 "code" ⟨some [("Python", 50)], none, [], "sent"⟩
    ⟨some [("Python", clamp_skill (50 +
        calculate_skill_delta_v2 50 95 ⟨some 80, some 0.5⟩ "medium" 1))],
      none, [], "sent"⟩
    ⟨["Python"],
      [("Python", calculate_skill_delta_v2 50 95 ⟨some 80, some 0.5⟩ "medium" 1)],
      [("Python", clamp_skill (50 +
        calculate_skill_delta_v2 50 95 ⟨some 80, some 0.5⟩ "medium" 1))],
      "tech_skills"⟩
    [("Python", 50)] rfl (by decide) rfl).1

/-- Claim C4: After the caller's validation pass, every skill in the
orchestrator's result (in `skills_updated`, `deltas` or `new_values`) stems
from an assessed label that is present in the challenge's `affected_skills`
allow-list; entries with out-of-scope labels are dropped before resolution and
can never contribute a skill. -/
theorem contract_enforcement (affected : List String)
    (sa : List (String × Assessment)) (ng : ℤ) (dl : String) (att : ℤ) (cat : String)
    (repo repo' : RepoState) (res : ProgressionResult) (m : SkillMap)
    (hm : skillsOf repo cat = some m)
    (hok : process_multiple_skills affected (validateAssessment affected sa) ng dl att
      cat repo = .ok (repo', res)) :
    ∀ k, (k ∈ res.skills_updated ∨ k ∈ res.deltas.map Prod.fst ∨
        k ∈ res.new_values.map Prod.fst) →
      ∃ l a, (l, a) ∈ sa ∧ l ∈ affected ∧
        map_skill_to_user_skill l m (isSoftCategory cat) = some k := by
  obtain ⟨hrepo', hres⟩ := process_multiple_skills_ok hm hok
  subst hres
  intro k hk
  have hk' : k ∈ (processSkillsGo ng dl att (isSoftCategory cat)
      (validateAssessment affected sa) m [] []).2.1.map Prod.fst := by
    rcases hk with h | h | h
    · exact h
    · exact h
    · rwa [processSkillsGo_newvals_keys ng dl att (isSoftCategory cat)
        (validateAssessment affected sa) m [] [] rfl] at h
  rcases processSkillsGo_stems ng dl att (isSoftCategory cat)
      (validateAssessment affected sa) m [] [] k hk' with h | ⟨la, hla, hres'⟩
  · simp at h
  · obtain ⟨hmem, hpred⟩ := List.mem_filter.mp hla
    exact ⟨la.1, la.2, hmem, List.elem_iff.mp hpred, hres'⟩

/-- Witness for C4: `affected_skills = ["Python","SQL"]`, assessments for
`"Python"` and the hallucinated `"Docker"`; only `"Python"` survives. -/
theorem contract_enforcement_witness :
    skillsOf ⟨some [("Python", 50)], none, [], "sent"⟩ "code" = some [("Python", 50)] ∧
    process_multiple_skills ["Python", "SQL"]
        (validateAssessment ["Python", "SQL"]
          [("Python", ⟨some 80, some 0.5⟩), ("Docker", ⟨some 90, some 0.9⟩)])
        95 "medium" 1 "code" ⟨some [("Python", 50)], none, [], "sent"⟩ =
      .ok (⟨some [("Python", clamp_skill (50 +
              calculate_skill_delta_v2 50 95 ⟨some 80, some 0.5⟩ "medium" 1))],
            none, [], "sent"⟩,
        ⟨["Python"],
         [("Python", calculate_skill_delta_v2 50 95 ⟨some 80, some 0.5⟩ "medium" 1)],
         [("Python", clamp_skill (50 +
            calculate_skill_delta_v2 50 95 ⟨some 80, some 0.5⟩ "medium" 1))],
         "tech_skills"⟩) ∧
    ("Python" ∈ (["Python"] : List String) →
      ∃ l a, (l, a) ∈ [("Python", (⟨some 80, some 0.5⟩ : Assessment)),
          ("Docker", ⟨some 90, some 0.9⟩)] ∧ l ∈ ["Python", "SQL"] ∧
        map_skill_to_user_skill l [("Python", 50)] (isSoftCategory "code") =
          some "Python") := by
  refine ⟨rfl, rfl, fun hmem => ?_⟩
  exact contract_enforcement ["Python", "SQL"]
    [("Python", ⟨some 80, some 0.5⟩), ("Docker", ⟨some 90, some 0.9⟩)]
    95 "medium" 1 "code" ⟨some [("Python", 50)], none, [], "sent"⟩
    ⟨some [("Python", clamp_skill (50 +
        calculate_skill_delta_v2 50 95 ⟨some 80, some 0.5⟩ "medium" 1))],
      none, [], "sent"⟩
    ⟨["Python"],
      [("Python", calculate_skill_delta_v2 50 95 ⟨some 80, some 0.5⟩ "medium" 1)],
      [("Python", clamp_skill (50 +
        calculate_skill_delta_v2 50 95 ⟨some 80, some 0.5⟩ "medium" 1))],
      "tech_skills"⟩
    [("Python", 50)] rfl rfl "Python" (Or.inl hmem)

/-- Claim C9: Frame property: a key of the fetched map that is not the
resolution target of any assessed label keeps exactly its original value in
the map persisted by the single repository write, and appears in none of
`skills_updated`, `deltas`, `new_values`. -/
theorem untouched_skills_frame (aff : List String)
    (sa : List (String × Assessment)) (ng : ℤ) (dl : String) (att : ℤ) (cat : String)
    (repo repo' : RepoState) (res : ProgressionResult) (m : SkillMap) (k : String)
    (hm : skillsOf repo cat = some m)
    (hok : process_multiple_skills aff sa ng dl att cat repo = .ok (repo', res))
    (hk : ∀ la ∈ sa, map_skill_to_user_skill la.1 m (isSoftCategory cat) ≠ some k) :
    (∀ m', skillsOf repo' cat = some m' → dictGet? m' k = dictGet? m k) ∧
    k ∉ res.skills_updated ∧ k ∉ res.deltas.map Prod.fst ∧
    k ∉ res.new_values.map Prod.fst := by
  obtain ⟨hrepo', hres⟩ := process_multiple_skills_ok hm hok
  subst hrepo' hres
  refine ⟨?_, ?_, ?_, ?_⟩
  · intro m' hm'
    rw [skillsOf_setSkills] at hm'
    obtain rfl : (processSkillsGo ng dl att (isSoftCategory cat) sa m [] []).1 = m' := by
      simpa using hm'
    exact processSkillsGo_frame_map ng dl att (isSoftCategory cat) sa m [] [] hk
  · exact processSkillsGo_frame_deltas ng dl att (isSoftCategory cat) sa m [] [] hk
      (by simp)
  · exact processSkillsGo_frame_deltas ng dl att (isSoftCategory cat) sa m [] [] hk
      (by simp)
  · exact processSkillsGo_frame_newvals ng dl att (isSoftCategory cat) sa m [] [] hk
      (by simp) rfl

/-- Witness for C9: `"SQL"` is assessed by no label and keeps its value. -/
theorem untouched_skills_frame_witness :
    skillsOf ⟨some [("Python", 50), ("SQL", 60)], none, [], "sent"⟩ "code" =
      some [("Python", 50), ("SQL", 60)] ∧
    process_multiple_skills ["Python"] [("Python", ⟨some 80, some 0.5⟩)] 95 "medium" 1
        "code" ⟨some [("Python", 50), ("SQL", 60)], none, [], "sent"⟩ =
      .ok (⟨some [("Python", clamp_skill (50 +
              calculate_skill_delta_v2 50 95 ⟨some 80, some 0.5⟩ "medium" 1)),
             ("SQL", 60)], none, [], "sent"⟩,
        ⟨["Python"],
         [("Python", calculate_skill_delta_v2 50 95 ⟨some 80, some 0.5⟩ "medium" 1)],
         [("Python", clamp_skill (50 +
            calculate_skill_delta_v2 50 95 ⟨some 80, some 0.5⟩ "medium" 1))],
         "tech_skills"⟩) ∧
    (∀ la ∈ [("Python", (⟨some 80, some 0.5⟩ : Assessment))],
      map_skill_to_user_skill la.1 [("Python", 50), ("SQL", 60)]
        (isSoftCategory "code") ≠ some "SQL") ∧
    (∀ m', skillsOf ⟨some [("Python", clamp_skill (50 +
          calculate_skill_delta_v2 50 95 ⟨some 80, some 0.5⟩ "medium" 1)),
          ("SQL", 60)], none, [], "sent"⟩ "code" = some m' →
        dictGet? m' "SQL" = dictGet? [("Python", 50), ("SQL", 60)] "SQL") := by
  refine ⟨rfl, rfl, by decide, ?_⟩
  exact (untouched_skills_frame ["Python"] [("Python", ⟨some 80, some 0.5⟩)] 95
    "medium" 1 "code" ⟨some [("Python", 50), ("SQL", 60)], none, [], "sent"⟩
    ⟨some [("Python", clamp_skill (50 +
        calculate_skill_delta_v2 50 95 ⟨some 80, some 0.5⟩ "medium" 1)),
      ("SQL", 60)], none, [], "sent"⟩
    ⟨["Python"],
      [("Python", calculate_skill_delta_v2 50 95 ⟨some 80, some 0.5⟩ "medium" 1)],
      [("Python", clamp_skill (50 +
        calculate_skill_delta_v2 50 95 ⟨some 80, some 0.5⟩ "medium" 1))],
      "tech_skills"⟩
    [("Python", 50), ("SQL", 60)] "SQL" rfl rfl (by decide)).1

/-- Claim C8: Each user skill receives at most one delta per orchestrator call
(keys appear at most once in `skills_updated`, `deltas` and `new_values`), and
the delta recorded for a key is computed from the *first* assessment in
iteration order whose label resolves to that key, at that key's level in the
fetched map; later assessments resolving to the same key are skipped. -/
theorem dedup_first_wins (aff : List String) (sa : List (String × Assessment))
    (ng : ℤ) (dl : String) (att : ℤ) (cat : String) (repo repo' : RepoState)
    (res : ProgressionResult) (m : SkillMap)
    (hm : skillsOf repo cat = some m)
    (hok : process_multiple_skills aff sa ng dl att cat repo = .ok (repo', res)) :
    res.skills_updated.Nodup ∧ (res.deltas.map Prod.fst).Nodup ∧
    (res.new_values.map Prod.fst).Nodup ∧
    ∀ k ∈ res.deltas.map Prod.fst,
      ∃ la, sa.find? (fun la =>
          map_skill_to_user_skill la.1 m (isSoftCategory cat) == some k) = some la ∧
        dictGet? res.deltas k =
          some (calculate_skill_delta_v2 ((dictGet? m k).getD 0) ng la.2 dl att) := by
  obtain ⟨hrepo', hres⟩ := process_multiple_skills_ok hm hok
  subst hres
  have hnodup := processSkillsGo_nodup ng dl att (isSoftCategory cat) sa m [] []
    (by simp)
  refine ⟨hnodup, hnodup, ?_, ?_⟩
  · rwa [processSkillsGo_newvals_keys ng dl att (isSoftCategory cat) sa m [] [] rfl]
  · intro k hk
    have hfirst := processSkillsGo_first ng dl att (isSoftCategory cat) sa m [] [] k rfl
    simp only [map_skill_to_user_skill]
    cases hf : sa.find? (fun la =>
        resolveOnKeys la.1 (m.map Prod.fst) (isSoftCategory cat) == some k) with
    | none =>
        rw [hf] at hfirst
        exact absurd ((dictGet?_eq_none _ _).mp hfirst) (by simpa using hk)
    | some la =>
        rw [hf] at hfirst
        exact ⟨la, rfl, hfirst⟩

/-- Witness for C8: the labels `"Python"` (exact match) and `"python"`
(substring match) both resolve to the user skill `"Python"`; only the first
assessment is applied. -/
theorem dedup_first_wins_witness :
    skillsOf ⟨some [("Python", 50)], none, [], "sent"⟩ "code" = some [("Python", 50)] ∧
    process_multiple_skills []
        [("Python", ⟨some 80, some 0.5⟩), ("python", ⟨some 20, some (-0.5)⟩)]
        95 "medium" 1 "code" ⟨some [("Python", 50)], none, [], "sent"⟩ =
      .ok (⟨some [("Python", clamp_skill (50 +
              calculate_skill_delta_v2 50 95 ⟨some 80, some 0.5⟩ "medium" 1))],
            none, [], "sent"⟩,
        ⟨["Python"],
         [("Python", calculate_skill_delta_v2 50 95 ⟨some 80, some 0.5⟩ "medium" 1)],
         [("Python", clamp_skill (50 +
            calculate_skill_delta_v2 50 95 ⟨some 80, some 0.5⟩ "medium" 1))],
         "tech_skills"⟩) ∧
    (∃ la, [("Python", (⟨some 80, some 0.5⟩ : Assessment)),
          ("python", ⟨some 20, some (-0.5)⟩)].find? (fun la =>
        map_skill_to_user_skill la.1 [("Python", 50)] (isSoftCategory "code") ==
          some "Python") = some la ∧
      dictGet? [("Python", calculate_skill_delta_v2 50 95 ⟨some 80, some 0.5⟩
          "medium" 1)] "Python" =
        some (calculate_skill_delta_v2
          ((dictGet? [("Python", (50:ℤ))] "Python").getD 0) 95 la.2 "medium" 1)) := by
  refine ⟨rfl, rfl, ?_⟩
  exact (dedup_first_wins []
    [("Python", ⟨some 80, some 0.5⟩), ("python", ⟨some 20, some (-0.5)⟩)]
    95 "medium" 1 "code" ⟨some [("Python", 50)], none, [], "sent"⟩
    ⟨some [("Python", clamp_skill (50 +
        calculate_skill_delta_v2 50 95 ⟨some 80, some 0.5⟩ "medium" 1))],
      none, [], "sent"⟩
    ⟨["Python"],
      [("Python", calculate_skill_delta_v2 50 95 ⟨some 80, some 0.5⟩ "medium" 1)],
      [("Python", clamp_skill (50 +
        calculate_skill_delta_v2 50 95 ⟨some 80, some 0.5⟩ "medium" 1))],
      "tech_skills"⟩
    [("Python", 50)] rfl rfl).2.2.2 "Python" (by simp)

/-- Claim C5, counterexample: On the legacy single-skill path the target skill
is taken directly from `affected_skills` with *no* resolution against the
map: with tech map `{"Python": 70}` and `affected_skills = ["Rust"]`, the
progression step persists a map with the brand-new key `"Rust"` (defaulted to
level 50, zero-intensity delta 0), so progression does add a key that was not
present. -/
theorem legacy_path_new_key_counterexample :
    (progressionStep "medium" "code" ["Rust"] ⟨50, "fb", [], some ⟨none, some 0⟩⟩ 50 1
        ⟨some [("Python", 70)], none, [], "sent"⟩).1.tech_skills =
      some [("Python", 70), ("Rust", 50)] ∧
    "Rust" ∉ ([("Python", (70:ℤ))].map Prod.fst) := by
  refine ⟨?_, by decide⟩
  have h1 : (progressionStep "medium" "code" ["Rust"] ⟨50, "fb", [], some ⟨none, some 0⟩⟩
      50 1 ⟨some [("Python", 70)], none, [], "sent"⟩).1.tech_skills =
      some (apply_skill_update [("Python", 70)] (some "Rust")
        (calculate_skill_delta ((dictGet? [("Python", (70:ℤ))] "Rust").getD 50)
          ⟨none, some 0⟩ "medium" 1)) := rfl
  have hd : calculate_skill_delta ((dictGet? [("Python", (70:ℤ))] "Rust").getD 50)
      ⟨none, some 0⟩ "medium" 1 = 0 :=
    calculate_skill_delta_of_zero_intensity _ _ _ _ rfl
  rw [h1, hd]
  decide

/-- Claim C5, amended: The multi-skill path never adds a key: the persisted map
keeps exactly the fetched map's key list, because an assessed label is applied
only when it resolves to an existing key (unmapped labels are dropped).  The
legacy single-skill path applies the target without resolution: it keeps the
key list when the target already exists, and otherwise appends exactly the
missing target key. -/
theorem no_new_keys_amended :
    (∀ (aff : List String) (sa : List (String × Assessment)) (ng : ℤ) (dl : String)
      (att : ℤ) (cat : String) (repo repo' : RepoState) (res : ProgressionResult)
      (m : SkillMap), skillsOf repo cat = some m →
      process_multiple_skills aff sa ng dl att cat repo = .ok (repo', res) →
      ∀ m', skillsOf repo' cat = some m' → m'.map Prod.fst = m.map Prod.fst) ∧
    (∀ (m : SkillMap) (t : String) (d : ℤ), t ∈ m.map Prod.fst →
      (apply_skill_update m (some t) d).map Prod.fst = m.map Prod.fst) ∧
    (∀ (m : SkillMap) (t : String) (d : ℤ), t ∉ m.map Prod.fst → t ≠ "" →
      (apply_skill_update m (some t) d).map Prod.fst = m.map Prod.fst ++ [t]) := by
  refine ⟨?_, ?_, ?_⟩
  · intro aff sa ng dl att cat repo repo' res m hm hok m' hm'
    obtain ⟨hrepo', -⟩ := process_multiple_skills_ok hm hok
    subst hrepo'
    rw [skillsOf_setSkills] at hm'
    obtain rfl : (processSkillsGo ng dl att (isSoftCategory cat) sa m [] []).1 = m' := by
      simpa using hm'
    exact processSkillsGo_keys ng dl att (isSoftCategory cat) sa m [] []
  · intro m t d ht
    by_cases he : t = ""
    · simp [apply_skill_update, he]
    · simp only [apply_skill_update, if_neg he]
      exact dictSet_keys_of_mem _ ht
  · intro m t d ht he
    simp only [apply_skill_update, if_neg he]
    exact dictSet_keys_of_not_mem _ ht

/-- Witness for the amended C5: a multi-skill run preserving the key list, an
existing legacy target preserving it, and a missing legacy target appending
exactly itself. -/
theorem no_new_keys_amended_witness :
    (skillsOf ⟨some [("Python", 50)], none, [], "sent"⟩ "code" = some [("Python", 50)] ∧
     process_multiple_skills ["Python"] [("Python", ⟨some 80, some 0.5⟩)] 95 "medium" 1
        "code" ⟨some [("Python", 50)], none, [], "sent"⟩ =
      .ok (⟨some [("Python", clamp_skill (50 +
              calculate_skill_delta_v2 50 95 ⟨some 80, some 0.5⟩ "medium" 1))],
            none, [], "sent"⟩,
        ⟨["Python"],
         [("Python", calculate_skill_delta_v2 50 95 ⟨some 80, some 0.5⟩ "medium" 1)],
         [("Python", clamp_skill (50 +
            calculate_skill_delta_v2 50 95 ⟨some 80, some 0.5⟩ "medium" 1))],
         "tech_skills"⟩) ∧
     (∀ m', skillsOf ⟨some [("Python", clamp_skill (50 +
          calculate_skill_delta_v2 50 95 ⟨some 80, some 0.5⟩ "medium" 1))],
          none, [], "sent"⟩ "code" = some m' →
        m'.map Prod.fst = [("Python", (50:ℤ))].map Prod.fst)) ∧
    ("Python" ∈ ([("Python", (70:ℤ))].map Prod.fst) ∧
     (apply_skill_update [("Python", 70)] (some "Python") 5).map Prod.fst =
       [("Python", (70:ℤ))].map Prod.fst) ∧
    ("Rust" ∉ ([("Python", (70:ℤ))].map Prod.fst) ∧ "Rust" ≠ "" ∧
     (apply_skill_update [("Python", 70)] (some "Rust") 0).map Prod.fst =
       [("Python", (70:ℤ))].map Prod.fst ++ ["Rust"]) := by
  refine ⟨⟨rfl, rfl, ?_⟩, ⟨by decide, ?_⟩, ⟨by decide, by decide, ?_⟩⟩
  · exact no_new_keys_amended.1 ["Python"] [("Python", ⟨some 80, some 0.5⟩)] 95
      "medium" 1 "code" ⟨some [("Python", 50)], none, [], "sent"⟩
      ⟨some [("Python", clamp_skill (50 +
          calculate_skill_delta_v2 50 95 ⟨some 80, some 0.5⟩ "medium" 1))],
        none, [], "sent"⟩
      ⟨["Python"],
        [("Python", calculate_skill_delta_v2 50 95 ⟨some 80, some 0.5⟩ "medium" 1)],
        [("Python", clamp_skill (50 +
          calculate_skill_delta_v2 50 95 ⟨some 80, some 0.5⟩ "medium" 1))],
        "tech_skills"⟩
      [("Python", 50)] rfl rfl
  · exact no_new_keys_amended.2.1 [("Python", 70)] "Python" 5 (by decide)
  · exact no_new_keys_amended.2.2 [("Python", 70)] "Rust" 0 (by decide) (by decide)

/-- When the profile has no skill maps at all, every branch of the progression
step fails (or does nothing) and is swallowed: the repository is left exactly
as it was, `skills_progression` stays `None` and so do the legacy delta
fields. -/
theorem progressionStep_no_skills (dl cat : String) (aff : List String)
    (ev : EvalResult) (score att : ℤ) (repo : RepoState)
    (ht : repo.tech_skills = none) (hs : repo.soft_skills = none) :
    (progressionStep dl cat aff ev score att repo).1 = repo ∧
    (progressionStep dl cat aff ev score att repo).2.1 = none ∧
    (progressionStep dl cat aff ev score att repo).2.2.2.1 = none ∧
    (progressionStep dl cat aff ev score att repo).2.2.2.2 = none := by
  have hnone : skillsOf repo cat = none := by
    unfold skillsOf
    split <;> simp [ht, hs]
  have hproc : ∀ sa ng, process_multiple_skills aff sa ng dl att cat repo =
      .error "Attributes não encontrados" := by
    intro sa ng
    unfold process_multiple_skills
    rw [hnone]
  cases h1 : (!aff.isEmpty && !ev.skills_assessment.isEmpty) with
  | true => simp [progressionStep, h1, hproc]
  | false =>
      cases h2 : (!aff.isEmpty && ev.skill_assessment_old.isSome) with
      | false => simp [progressionStep, h1, h2]
      | true =>
          simp only [progressionStep, h1, h2, Bool.false_eq_true, if_neg,
            not_false_iff, if_pos]
          cases ho : ev.skill_assessment_old with
          | none => simp
          | some old =>
              cases hh : aff.head? with
              | none => simp
              | some t =>
                  by_cases he : t = ""
                  · simp [he]
                  · simp [he, ht]

/-- Claim C7: When the profile has no skill maps (so any skills-repository read
in the progression step raises), the post-evaluation submission flow still
returns status `"scored"` with `skills_progression = None`, the feedback and
score are still persisted, and no failure escapes: `scoreSubmissionAfterEval`
returns normally with the repository changed only by the feedback record and
the final status. -/
theorem progression_failure_swallowed (dl cat : String) (aff0 : List String)
    (tsf : Option String) (ev : EvalResult) (att : ℤ) (repo : RepoState)
    (ht : repo.tech_skills = none) (hs : repo.soft_skills = none) :
    (scoreSubmissionAfterEval dl cat aff0 tsf ev att repo).2.status = "scored" ∧
    (scoreSubmissionAfterEval dl cat aff0 tsf ev att repo).2.skills_progression = none ∧
    (scoreSubmissionAfterEval dl cat aff0 tsf ev att repo).2.score = ev.nota_geral ∧
    (scoreSubmissionAfterEval dl cat aff0 tsf ev att repo).2.feedback =
      ev.feedback_detalhado ∧
    (scoreSubmissionAfterEval dl cat aff0 tsf ev att repo).2.delta_applied = none ∧
    (scoreSubmissionAfterEval dl cat aff0 tsf ev att repo).1.feedbacks =
      repo.feedbacks ++ [(ev.nota_geral, ev.feedback_detalhado)] ∧
    (scoreSubmissionAfterEval dl cat aff0 tsf ev att repo).1.submission_status =
      "scored" := by
  obtain ⟨ha, hb, hc, hd⟩ := progressionStep_no_skills dl cat
    (if aff0.isEmpty then
      match tsf with
      | some t => if t = "" then [] else [t]
      | none => []
    else aff0) ev ev.nota_geral att
    { repo with feedbacks := repo.feedbacks ++ [(ev.nota_geral, ev.feedback_detalhado)] }
    ht hs
  simp only [scoreSubmissionAfterEval]
  exact ⟨trivial, hb, trivial, trivial, hc, by rw [ha], trivial⟩

/-- Witness for C7: a profile with no skill maps, a successful evaluation of a
multi-skill challenge; the submission is still scored, progression is null and
the feedback record is persisted. -/
theorem progression_failure_swallowed_witness :
    (⟨none, none, [], "evaluating"⟩ : RepoState).tech_skills = none ∧
    (⟨none, none, [], "evaluating"⟩ : RepoState).soft_skills = none ∧
    (scoreSubmissionAfterEval "medium" "code" ["Python"] none
        ⟨88, "bom trabalho", [("Python", ⟨some 80, some 0.5⟩)], none⟩ 1
        ⟨none, none, [], "evaluating"⟩).2.status = "scored" ∧
    (scoreSubmissionAfterEval "medium" "code" ["Python"] none
        ⟨88, "bom trabalho", [("Python", ⟨some 80, some 0.5⟩)], none⟩ 1
        ⟨none, none, [], "evaluating"⟩).2.skills_progression = none ∧
    (scoreSubmissionAfterEval "medium" "code" ["Python"] none
        ⟨88, "bom trabalho", [("Python", ⟨some 80, some 0.5⟩)], none⟩ 1
        ⟨none, none, [], "evaluating"⟩).1.feedbacks = [] ++ [(88, "bom trabalho")] := by
  have h := progression_failure_swallowed "medium" "code" ["Python"] none
    ⟨88, "bom trabalho", [("Python", ⟨some 80, some 0.5⟩)], none⟩ 1
    ⟨none, none, [], "evaluating"⟩ rfl rfl
  exact ⟨rfl, rfl, h.1, h.2.1, h.2.2.2.2.2.1⟩

end Praxis

